import Mathlib

/-!
Verification of the ImageViewer animated-image engine (`ImageViewer.pyw`)
against its natural-language specification.

Each definition below is a shallow embedding of a function or handler of
the source file; line numbers in the doc comments refer to
`src/ImageViewer.pyw`.
-/

/-! ## Bounded Cache (`class Cache(OrderedDict)`, lines 177-214)

The cache is an `OrderedDict` subclass.  We model it as an association
list in dictionary order (head = oldest / first in iteration order,
tail end = newest), together with the `max_size` budget and the optional
`default_factory`.  The size estimator `total_size` is imported from the
external `sizeof` module and is applied to the whole structure; we model
it as a caller-supplied function `sz` on the entry list, as the spec
describes ("Size estimation is caller-supplied"). -/

/-- The cache state: `entries` in `OrderedDict` iteration order
(head is oldest), the `max_size` budget and the optional
`default_factory` (a nullary callable producing a fresh value). -/
structure Cache (K V : Type) where
  entries : List (K × V)
  max_size : ℕ
  default_factory : Option (Unit → V)

variable {K V : Type} [DecidableEq K]

/-- `dict.__getitem__` lookup without side effects: the value stored
under `k`, if any. -/
def Cache.lookup (k : K) : List (K × V) → Option V
  | [] => none
  | (k', v) :: rest => if k' = k then some v else Cache.lookup k rest

/-- `OrderedDict.__setitem__` on the raw mapping: an existing key keeps
its position and only its value is replaced; a new key is appended at
the end (most recent position). -/
def Cache.setRaw (k : K) (v : V) : List (K × V) → List (K × V)
  | [] => [(k, v)]
  | (k', v') :: rest =>
      if k' = k then (k', v) :: rest else (k', v') :: Cache.setRaw k v rest

/-- `OrderedDict.move_to_end(key)`: remove the entry and re-append it at
the most-recent end.  Only called on keys present in the dict. -/
def Cache.moveToEnd (k : K) (l : List (K × V)) : List (K × V) :=
  match Cache.lookup k l with
  | none => l
  | some v => (l.filter (fun e => !(decide (e.1 = k)))) ++ [(k, v)]

/-- `Cache._cull` (lines 187-191): a single `if` — when the estimated
total size exceeds `max_size` and more than one entry remains, delete
`next(iter(self))`, i.e. the head (oldest) entry, once.  It is not a
loop. -/
def Cache.cull (sz : List (K × V) → ℕ) (c : Cache K V) : Cache K V :=
  if c.max_size < sz c.entries ∧ 1 < c.entries.length then
    { c with entries := c.entries.tail }
  else c

/-- `Cache.__setitem__` (lines 193-195): raw `OrderedDict` write, then
one `_cull`. -/
def Cache.setItem (sz : List (K × V) → ℕ) (k : K) (v : V) (c : Cache K V) :
    Cache K V :=
  Cache.cull sz { c with entries := Cache.setRaw k v c.entries }

/-- `Cache.__getitem__` (lines 197-210).  On a hit: `move_to_end`, then
the trailing `_cull`, return the value.  On a miss with no factory: the
`KeyError` is re-raised (the trailing `_cull` and `return` are not
reached).  On a miss with a factory: build the fresh value, insert it
via `self[key] = value` (which itself culls), then the trailing `_cull`,
and return the fresh value. -/
def Cache.getItem (sz : List (K × V) → ℕ) (k : K) (c : Cache K V) :
    Except Unit (V × Cache K V) :=
  match Cache.lookup k c.entries with
  | some v =>
      .ok (v, Cache.cull sz { c with entries := Cache.moveToEnd k c.entries })
  | none =>
      match c.default_factory with
      | none => .error ()
      | some f =>
          let v := f ()
          .ok (v, Cache.cull sz (Cache.setItem sz k v c))

/-- `Cache.update` (lines 212-214): `OrderedDict.update` writes every
pair of the argument mapping in order (existing keys keep their
position), then one `_cull`. -/
def Cache.updateBulk (sz : List (K × V) → ℕ) (m : List (K × V))
    (c : Cache K V) : Cache K V :=
  Cache.cull sz
    { c with entries := m.foldl (fun l e => Cache.setRaw e.1 e.2 l) c.entries }

/-- A mutating cache operation, as enumerated by the claim: a put via
`__setitem__`, a factory lookup via `__getitem__`, or a bulk `update`. -/
inductive CacheOp (K V : Type) where
  | put (k : K) (v : V)
  | get (k : K)
  | update (m : List (K × V))

/-- Apply one mutating operation to the cache (a `get` miss with no
factory leaves the cache unchanged: the `KeyError` propagates before
any mutation). -/
def CacheOp.apply (sz : List (K × V) → ℕ) (c : Cache K V) :
    CacheOp K V → Cache K V
  | .put k v => Cache.setItem sz k v c
  | .get k =>
      match Cache.getItem sz k c with
      | .ok (_, c') => c'
      | .error _ => c
  | .update m => Cache.updateBulk sz m c

/-- The entry list each operation hands to its final `_cull` call
(the operation's base effect). -/
def CacheOp.baseEntries (sz : List (K × V) → ℕ) (c : Cache K V) :
    CacheOp K V → List (K × V)
  | .put k v => Cache.setRaw k v c.entries
  | .get k =>
      match Cache.lookup k c.entries with
      | some _ => Cache.moveToEnd k c.entries
      | none =>
          match c.default_factory with
          | none => c.entries
          | some f => (Cache.setItem sz k (f ()) c).entries
  | .update m => m.foldl (fun l e => Cache.setRaw e.1 e.2 l) c.entries

/-- `op` does not raise: a `get` either hits or has a factory to fall
back on (the other operations never raise). -/
def CacheOp.noRaise (sz : List (K × V) → ℕ) (c : Cache K V) :
    CacheOp K V → Prop
  | .get k => ∃ r, Cache.getItem sz k c = .ok r
  | .put _ _ => True
  | .update _ => True

/-- The post-state of a single mutating operation, relative to the base
effect `base` it handed to its final `_cull`: either the estimated size
is back under the budget `b`, or at most one entry remains, or exactly
one entry — the oldest of `base` — was evicted while `base` was over
budget (and the size may still exceed `b`). -/
def culledOnce (sz : List (K × V) → ℕ) (c' : Cache K V) (b : ℕ)
    (base : List (K × V)) : Prop :=
  sz c'.entries ≤ b ∨ c'.entries.length ≤ 1 ∨
    (c'.entries = base.tail ∧ b < sz base ∧ 1 < base.length)

/-- Sum-of-values size estimate used for concrete counterexamples
(values are their own sizes). -/
def sumSize (l : List (ℕ × ℕ)) : ℕ := (l.map Prod.snd).sum

/-- The empty ℕ-cache with budget `b` and no factory. -/
def natCache (b : ℕ) : Cache ℕ ℕ := ⟨[], b, none⟩

/-- A concrete two-entry ℕ-cache used to witness the LRU lemmas. -/
def lruCache : Cache ℕ ℕ := ⟨[(1, 5), (2, 7)], 100, none⟩

/-- A concrete one-entry ℕ-cache with a default factory returning `7`. -/
def factCache : Cache ℕ ℕ := ⟨[(1, 5)], 10, some (fun _ => 7)⟩

/-! ## Aspect-fit computation

`Animation.loader` (lines 79-94), `ImageContainer.load_gif`
(lines 763-774), `show_regular` (lines 703-718) and
`show_gif_concurrent` (lines 850-861) all contain the same fitting
block: with `ratio = w / h`,

    if w > self.width or h > self.height:
        if w >= h:
            nw, nh = self.width, ceil(self.width / ratio)
            if nh > self.height:
                nw, nh = ceil(self.height * ratio), self.height
        else:
            nw, nh = ceil(self.height * ratio), self.height
            if nw > self.width:
                nw, nh = self.width, ceil(self.width / ratio)
        w, h = nw, nh

We embed the real-number division and `math.ceil` with exact rational
arithmetic (`ℚ` and `Int.ceil`).  `W`, `H` are the box (canvas)
dimensions, `w`, `h` the native image dimensions. -/

/-- The landscape-or-square branch (`w >= h`): saturate the width, then
correct a height overflow from the height. -/
def fitWidthFirst (W H w h : ℕ) : ℕ × ℕ :=
  if H < (⌈(W : ℚ) / ((w : ℚ) / (h : ℚ))⌉).toNat
  then ((⌈(H : ℚ) * ((w : ℚ) / (h : ℚ))⌉).toNat, H)
  else (W, (⌈(W : ℚ) / ((w : ℚ) / (h : ℚ))⌉).toNat)

/-- The portrait branch (`w < h`): saturate the height, then correct a
width overflow from the width. -/
def fitHeightFirst (W H w h : ℕ) : ℕ × ℕ :=
  if W < (⌈(H : ℚ) * ((w : ℚ) / (h : ℚ))⌉).toNat
  then (W, (⌈(W : ℚ) / ((w : ℚ) / (h : ℚ))⌉).toNat)
  else ((⌈(H : ℚ) * ((w : ℚ) / (h : ℚ))⌉).toNat, H)

/-- The full aspect-fit computation: scale only when the native size
overflows the box, landscape-or-square goes width-first. -/
def fitSize (W H w h : ℕ) : ℕ × ℕ :=
  if W < w ∨ H < h then
    if h ≤ w then fitWidthFirst W H w h else fitHeightFirst W H w h
  else (w, h)

/-! ## Playback (`ImageContainer.repeat_gif`, lines 952-957)

    async def repeat_gif(self, frames, delay=1/30):
        while True:
            for frame in frames:
                self.canvas_show_image(frame)
                await asyncio.sleep(delay)
            await asyncio.sleep(0)

The one `delay` parameter is slept after every frame.  `show`
(lines 918-921) derives that parameter from the image's top-level
`info["duration"] / 1000`, falling back to `1/15` on `KeyError`.
The per-frame `delays` list recorded by `Animation._load_worker` is
never consulted by this playback path (`play_animation`, which would
use it, has no caller). -/

/-- The delay `show` passes to gif playback: the source's top-level
duration (milliseconds) divided by 1000, or `1/15` when the key is
absent. -/
def showGifDelay (duration : Option ℚ) : ℚ :=
  match duration with
  | some d => d / 1000
  | none => 1 / 15

/-- The `k`-th event of the infinite `repeat_gif` presentation trace:
the frame handed to `canvas_show_image` and the duration of the
`asyncio.sleep` that follows it (the same `delay` every time).  `none`
only when the frame list is empty (the loop then presents nothing). -/
def repeatGifEvent {F : Type} (frames : List F) (delay : ℚ) (k : ℕ) :
    Option (F × ℚ) :=
  (frames.get? (k % frames.length)).map (fun f => (f, delay))

/-! ## Resize debounce (`handle_resize` / `handle_resize_end`,
lines 485-508)

Every effective resize event records the new dimensions and a
timestamp and schedules one `handle_resize_end` callback via
`after_idle`.  Each scheduled callback, when run, either performs the
clear-cache/reload/re-show cycle (when more than 100 ms have passed
since the last recorded resize) or reschedules itself.  No flag stops
a callback whose quiescence test succeeds, so every scheduled chain
eventually performs its own cycle.  We count scheduled-but-unfired
callbacks in `pending` and performed cycles in `cycles`. -/

/-- Debounce-relevant state of `ImageContainer`. -/
structure ResizeState where
  width : ℤ
  height : ℤ
  lastConfigure : ℚ
  pending : ℕ
  cycles : ℕ

/-- `handle_resize` (lines 485-497): events whose width is unchanged
and whose height moved by less than the safe bound `sb`
(`progress_bar.winfo_height() * 2`) are ignored; otherwise dimensions
and `last_configure` are recorded and one `handle_resize_end`
callback is scheduled. -/
def handleResize (sb : ℤ) (t : ℚ) (w h : ℤ) (s : ResizeState) :
    ResizeState :=
  if s.width = w ∧ s.height - sb < h ∧ h < s.height + sb then s
  else { s with width := w, height := h, lastConfigure := t,
                pending := s.pending + 1 }

/-- One scheduled `handle_resize_end` callback (lines 499-508) running
at time `t`: if more than 0.100 s have passed since `last_configure`
it clears the gif cache, reloads the context and re-shows — one cycle
— and is done; otherwise it reschedules itself (remains pending). -/
def runPending (t : ℚ) (s : ResizeState) : ResizeState :=
  if s.pending = 0 then s
  else if 1 / 10 < t - s.lastConfigure then
    { s with pending := s.pending - 1, cycles := s.cycles + 1 }
  else s

/-- One scheduler step: a resize event or the execution of one
scheduled callback. -/
inductive RAction where
  | resize (t : ℚ) (w h : ℤ)
  | run (t : ℚ)

/-- Apply one action to the debounce state. -/
def RAction.step (sb : ℤ) (s : ResizeState) : RAction → ResizeState
  | .resize t w h => handleResize sb t w h s
  | .run t => runPending t s

/-- Apply a whole interleaving of resize events and callback runs. -/
def applyTrace (sb : ℤ) (s : ResizeState) (tr : List RAction) :
    ResizeState :=
  tr.foldl (RAction.step sb) s

/-- Initial debounce state: a 500×500 canvas, nothing pending. -/
def initResize : ResizeState := ⟨500, 500, 0, 0, 0⟩

/-- A burst of `n` effective resize events 50 ms apart: event `i`
arrives at time `i/20` with width `600 + i`, so each event changes the
width and passes the `handle_resize` guard, and consecutive events are
within the 100 ms quiescence window of their successor. -/
def burstEvents (n : ℕ) : List RAction :=
  (List.range n).map
    (fun (i : ℕ) => RAction.resize ((i : ℚ) / 20) (600 + (i : ℤ)) 700)

/-- The burst followed by the execution of the `n` scheduled callbacks
once the burst has settled (at time `n + 1`, past the quiescence
deadline of the last event). -/
def burstTrace (n : ℕ) : List RAction :=
  burstEvents n ++ List.replicate n (RAction.run ((n : ℚ) + 1))

/-! ## View-controller state (`ImageContainer`) -/

/-- The per-switch transient state of the controller touched by
`reload_context` and the resize path. -/
structure CtrlState where
  currentIndex : ℕ
  currentRotation : ℤ
  currentZoom : ℤ
  playTasks : List String

/-- `reload_context` (lines 475-483): cancel and clear the play tasks,
then set `current_rotation = 0` and `current_zoom = 0`. -/
def reload_context (s : CtrlState) : CtrlState :=
  { s with playTasks := [], currentRotation := 0, currentZoom := 0 }

/-- The settled branch of `handle_resize_end` (lines 502-506):
`gif_cache.clear()`, `reload_context()`, then
`show(current_index, current_index, current_rotation)` — with
`current_rotation` read after `reload_context` has reset it.  Returns
the new state and the `(cur_index, index, rotate)` triple passed to
`show`. -/
def handleResizeEndSettled (s : CtrlState) : CtrlState × (ℕ × ℕ × ℤ) :=
  let s2 := reload_context s
  (s2, (s2.currentIndex, s2.currentIndex, s2.currentRotation))

/-! ## Image-path resolution and deletion -/

/-- Python list subscript semantics for an `int` index: non-negative
indices address from the front, negative ones from the back, anything
else raises `IndexError` (here: `none`). -/
def pyListGet {α : Type} (l : List α) (i : ℤ) : Option α :=
  if 0 ≤ i then l.get? i.toNat
  else if 0 ≤ (l.length : ℤ) + i then l.get? ((l.length : ℤ) + i).toNat
  else none

/-- `os.path.join` of the source folder and a relative file name. -/
def joinPath (dir name : String) : String := dir ++ "/" ++ name

/-- `ImageContainer.get_image_path` (lines 675-681):
`os.path.join(current_source, images[index])`, with the `IndexError`
of an out-of-range subscript caught and turned into `None`. -/
def get_image_path (source : String) (images : List String)
    (index : ℤ) : Option String :=
  (pyListGet images index).map (fun n => joinPath source n)

/-- The view-state used by the delete flow: the in-memory image list,
the current index, the source folder and the path the in-memory
`current_image_unedited` was opened from (if any). -/
structure DeleteCtx where
  images : List String
  currentIndex : ℕ
  source : String
  uneditedPath : Option String

/-- `handle_delete` (lines 510-523): on a declined prompt, nothing
happens; on confirmation the file is deleted (external), the entry is
popped from the in-memory list, and `self.show(self.current_index)` is
scheduled — a single positional argument, which binds to `show`'s
first parameter `cur_index` and leaves the display parameter `index`
at its default `0`.  Returns the new context and the
`(cur_index, index, rotate)` triple of the scheduled `show` call. -/
def handleDelete (confirmed : Bool) (s : DeleteCtx) :
    DeleteCtx × Option (ℕ × ℕ × ℤ) :=
  if confirmed then
    ({ s with images := s.images.eraseIdx s.currentIndex },
      some (s.currentIndex, 0, 0))
  else (s, none)

/-- Which source item `show(cur_index, index, ...)` (lines 892-908)
displays: the image file at `images[index]` — except that when
`index == cur_index` and an in-memory unedited image exists, that
in-memory image is re-shown instead of re-opening the file.  `none`
models "nothing shown" (out-of-range index). -/
def showDisplayed (unedited : Option String) (source : String)
    (images : List String) (curIndex idx : ℤ) : Option String :=
  if idx ≠ curIndex ∨ unedited = none then get_image_path source images idx
  else unedited

/-- Concrete delete context: three images, current index 1, the
in-memory unedited image opened from the current item. -/
def dctx : DeleteCtx := ⟨["a.png", "b.png", "c.png"], 1, "d", some "d/b.png"⟩

/-! ## Rotation (`handle_rotate`, lines 529-542)

    if event.keysym == "q":
        new_rot = self.current_rotation - 1
        if new_rot == -4:
            new_rot = 0
    else:
        new_rot = self.current_rotation + 1
        if new_rot == 4:
            new_rot = 0

-/

/-- One rotation step: `ccw = true` is the `Control-q`
(counter-clockwise) branch, `false` the clockwise one. -/
def rotateStep : Bool → ℤ → ℤ
  | true, rot => if rot - 1 = -4 then 0 else rot - 1
  | false, rot => if rot + 1 = 4 then 0 else rot + 1

/-- The rotation after a sequence of rotate events starting from 0. -/
def rotateRun (events : List Bool) : ℤ :=
  events.foldl (fun r e => rotateStep e r) 0

/-! ### Cache helper lemmas -/

omit [DecidableEq K] in
lemma cull_max_size (sz : List (K × V) → ℕ) (c : Cache K V) :
    (Cache.cull sz c).max_size = c.max_size := by
  unfold Cache.cull; split <;> rfl

lemma setItem_max_size (sz : List (K × V) → ℕ) (k : K) (v : V)
    (c : Cache K V) : (Cache.setItem sz k v c).max_size = c.max_size := by
  unfold Cache.setItem; rw [cull_max_size]

omit [DecidableEq K] in
lemma cull_culledOnce (sz : List (K × V) → ℕ) (c : Cache K V) :
    culledOnce sz (Cache.cull sz c) c.max_size c.entries := by
  unfold culledOnce Cache.cull
  split
  · next h => exact Or.inr (Or.inr ⟨rfl, h.1, h.2⟩)
  · next h =>
      by_cases hs : c.max_size < sz c.entries
      · push_neg at h
        exact Or.inr (Or.inl (h hs))
      · exact Or.inl (le_of_not_lt hs)

lemma lookup_none_of_lookup_none_cons (k : K) (e : K × V)
    (l : List (K × V)) (h : Cache.lookup k (e :: l) = none) :
    Cache.lookup k l = none := by
  unfold Cache.lookup at h
  split at h
  · exact absurd h (by simp)
  · exact h

lemma lookup_tail_none (k : K) (l : List (K × V))
    (h : Cache.lookup k l = none) : Cache.lookup k l.tail = none := by
  cases l with
  | nil => exact h
  | cons e rest => exact lookup_none_of_lookup_none_cons k e rest h

lemma lookup_append_single (k : K) (v : V) (l : List (K × V))
    (h : Cache.lookup k l = none) :
    Cache.lookup k (l ++ [(k, v)]) = some v := by
  induction l with
  | nil => simp [Cache.lookup]
  | cons e rest ih =>
      obtain ⟨k', v'⟩ := e
      unfold Cache.lookup at h
      split at h
      · exact absurd h (by simp)
      · next hne =>
          rw [List.cons_append]
          unfold Cache.lookup
          rw [if_neg hne]
          exact ih h

lemma setRaw_absent (k : K) (v : V) (l : List (K × V))
    (h : Cache.lookup k l = none) :
    Cache.setRaw k v l = l ++ [(k, v)] := by
  induction l with
  | nil => rfl
  | cons e rest ih =>
      unfold Cache.lookup at h
      split at h
      · exact absurd h (by simp)
      · next hne => rw [Cache.setRaw, if_neg hne, List.cons_append, ih h]

lemma lookup_filter_ne (k : K) (l : List (K × V)) :
    Cache.lookup k (l.filter (fun e => !(decide (e.1 = k)))) = none := by
  induction l with
  | nil => rfl
  | cons e rest ih =>
      by_cases he : e.1 = k
      · simpa [List.filter, he] using ih
      · simpa [List.filter, he, Cache.lookup] using ih

/-- Culling a cache whose newest (last) entry is `(k, v)` with `k`
nowhere else keeps that entry newest: at most the oldest entry is
removed. -/
lemma cull_keeps_newest (sz : List (K × V) → ℕ) (c : Cache K V)
    (k : K) (v : V) (l : List (K × V)) (he : c.entries = l ++ [(k, v)])
    (hl : Cache.lookup k l = none) :
    ∃ l', (Cache.cull sz c).entries = l' ++ [(k, v)] ∧
      Cache.lookup k l' = none := by
  unfold Cache.cull
  split
  · next h =>
      rcases h with ⟨-, hlen⟩
      cases l with
      | nil => rw [he] at hlen; simp at hlen
      | cons e rest =>
          refine ⟨rest, ?_, lookup_none_of_lookup_none_cons k e rest hl⟩
          simp [he]
  · exact ⟨l, he, hl⟩

lemma setRaw_key_order (k : K) (v w : V) (l : List (K × V))
    (h : Cache.lookup k l = some v) :
    (Cache.setRaw k w l).map Prod.fst = l.map Prod.fst := by
  induction l with
  | nil => simp [Cache.lookup] at h
  | cons e rest ih =>
      unfold Cache.lookup at h
      split at h
      · next heq => simp [Cache.setRaw, heq]
      · next hne =>
          rw [Cache.setRaw, if_neg hne]
          simp [ih h]

/-! ### C1 / C7 / C8 theorems -/

/-- C1 (counterexample).  Budget 10, sum-of-values size estimate, puts
`(1,1)`, `(2,8)`, `(3,8)`: after the third put the estimated size is 16
> 10 while two entries remain, because `_cull` evicts at most one entry
per call (it is an `if`, not a loop).  The claimed invariant
"size ≤ B or exactly one entry remains" is false after that put. -/
theorem cache_budget_invariant_counterexample :
    ¬(sumSize (Cache.setItem sumSize 3 8 (Cache.setItem sumSize 2 8
        (Cache.setItem sumSize 1 1 (natCache 10)))).entries ≤
        (natCache 10).max_size ∨
      (Cache.setItem sumSize 3 8 (Cache.setItem sumSize 2 8
        (Cache.setItem sumSize 1 1 (natCache 10)))).entries.length = 1) := by
  decide

/-- C1 (amended).  After every mutating operation (put, lookup with
factory insertion, bulk update) that does not raise, either the
estimated size is within the budget, or at most one entry remains, or
the operation evicted exactly one entry — the oldest of the state it
handed to its final `_cull` — and the size may still exceed the budget.
The stronger claimed invariant fails because each operation culls at
most once. -/
theorem cache_mutation_single_cull (sz : List (K × V) → ℕ)
    (c : Cache K V) (op : CacheOp K V) (h : op.noRaise sz c) :
    culledOnce sz (op.apply sz c) c.max_size (op.baseEntries sz c) := by
  cases op with
  | put k v => exact cull_culledOnce sz _
  | update m => exact cull_culledOnce sz _
  | get k =>
      cases hl : Cache.lookup k c.entries with
      | some v =>
          have h2 := cull_culledOnce sz
            { c with entries := Cache.moveToEnd k c.entries }
          simp only [CacheOp.apply, CacheOp.baseEntries, Cache.getItem, hl]
          exact h2
      | none =>
          cases hf : c.default_factory with
          | none =>
              obtain ⟨r, hr⟩ := h
              simp only [Cache.getItem, hl, hf] at hr
              exact absurd hr (by simp)
          | some f =>
              have h2 := cull_culledOnce sz (Cache.setItem sz k (f ()) c)
              rw [setItem_max_size] at h2
              simp only [CacheOp.apply, CacheOp.baseEntries, Cache.getItem,
                hl, hf]
              exact h2

/-- C1 (witness): the amended statement at a concrete put. -/
theorem cache_mutation_single_cull_witness :
    culledOnce sumSize (CacheOp.apply sumSize (natCache 10) (.put 1 1))
      (natCache 10).max_size
      (CacheOp.baseEntries sumSize (natCache 10) (.put 1 1)) :=
  cache_mutation_single_cull sumSize (natCache 10) (.put 1 1) trivial

/-- C7.  On a key absent from the cache, `__getitem__` with a configured
factory never raises: it returns the factory's fresh value and the key
is present in the resulting cache with that value; with no factory
configured, the `KeyError` of the underlying `OrderedDict` miss
propagates (modelled as `.error ()`). -/
theorem cache_get_factory_miss (sz : List (K × V) → ℕ) (c : Cache K V)
    (k : K) (hmiss : Cache.lookup k c.entries = none) :
    (∀ f, c.default_factory = some f →
      ∃ c₂, Cache.getItem sz k c = .ok (f (), c₂) ∧
        Cache.lookup k c₂.entries = some (f ())) ∧
    (c.default_factory = none → Cache.getItem sz k c = .error ()) := by
  constructor
  · intro f hf
    refine ⟨Cache.cull sz (Cache.setItem sz k (f ()) c), ?_, ?_⟩
    · unfold Cache.getItem
      rw [hmiss, hf]
    · have hbase : (Cache.setRaw k (f ()) c.entries) =
        c.entries ++ [(k, f ())] := setRaw_absent k (f ()) c.entries hmiss
      obtain ⟨l₁, he₁, hl₁⟩ := cull_keeps_newest sz
        { c with entries := Cache.setRaw k (f ()) c.entries } k (f ())
        c.entries hbase hmiss
      obtain ⟨l₂, he₂, hl₂⟩ := cull_keeps_newest sz
        (Cache.cull sz { c with entries := Cache.setRaw k (f ()) c.entries })
        k (f ()) l₁ he₁ hl₁
      show Cache.lookup k (Cache.cull sz (Cache.setItem sz k (f ()) c)).entries
        = some (f ())
      unfold Cache.setItem
      rw [he₂]
      exact lookup_append_single k (f ()) l₂ hl₂
  · intro hf
    unfold Cache.getItem
    rw [hmiss, hf]

/-- C7 (witness): a concrete miss with a factory (key 2, factory `7`)
and a concrete miss without one. -/
theorem cache_get_factory_miss_witness :
    (∃ c₂, Cache.getItem sumSize 2 factCache = .ok (7, c₂) ∧
      Cache.lookup 2 c₂.entries = some 7) ∧
    Cache.getItem sumSize 2 (natCache 10) = .error () :=
  ⟨(cache_get_factory_miss sumSize factCache 2 (by decide)).1
      (fun _ => 7) rfl,
   (cache_get_factory_miss sumSize (natCache 10) 2 (by decide)).2 rfl⟩

/-- C8 (counterexample).  Puts `(1,5)`, `(2,5)`, then an overwriting put
of key 1 (making key 2 the least-recently-accessed under "reads and
writes alike"), then `(3,5)` which overflows the budget 10: the code
evicts key 1 — `OrderedDict.__setitem__` does not promote an existing
key, so iteration order is not last-access order over writes — while
classic LRU over all accesses would evict key 2. -/
theorem cache_lru_write_counterexample :
    Cache.lookup 1 (Cache.setItem sumSize 3 5 (Cache.setItem sumSize 1 5
      (Cache.setItem sumSize 2 5 (Cache.setItem sumSize 1 5
        (natCache 10))))).entries = none ∧
    Cache.lookup 2 (Cache.setItem sumSize 3 5 (Cache.setItem sumSize 1 5
      (Cache.setItem sumSize 2 5 (Cache.setItem sumSize 1 5
        (natCache 10))))).entries = some 5 := by
  decide

/-- C8 (amended).  A read that hits promotes its key to
most-recently-used (the key ends up unique at the newest end of the
iteration order), eviction always removes the entry at the oldest end
of that order, but a write to an existing key leaves the key order
unchanged — so eviction is LRU over reads and fresh inserts only, not
over overwrites. -/
theorem cache_lru_read_promotion (sz : List (K × V) → ℕ)
    (c : Cache K V) (k : K) (v w : V)
    (hv : Cache.lookup k c.entries = some v) :
    (∃ c₂ l, Cache.getItem sz k c = .ok (v, c₂) ∧
      c₂.entries = l ++ [(k, v)] ∧ Cache.lookup k l = none) ∧
    ((Cache.setRaw k w c.entries).map Prod.fst = c.entries.map Prod.fst) ∧
    (c.max_size < sz c.entries → 1 < c.entries.length →
      (Cache.cull sz c).entries = c.entries.tail) := by
  refine ⟨?_, setRaw_key_order k v w c.entries hv, ?_⟩
  · have hmv : Cache.moveToEnd k c.entries =
        (c.entries.filter (fun e => !(decide (e.1 = k)))) ++ [(k, v)] := by
      unfold Cache.moveToEnd
      rw [hv]
    obtain ⟨l', he', hl'⟩ := cull_keeps_newest sz
      { c with entries := Cache.moveToEnd k c.entries } k v
      (c.entries.filter (fun e => !(decide (e.1 = k)))) hmv
      (lookup_filter_ne k c.entries)
    refine ⟨_, l', ?_, he', hl'⟩
    unfold Cache.getItem
    rw [hv]
  · intro h1 h2
    unfold Cache.cull
    rw [if_pos ⟨h1, h2⟩]

lemma fitWidthFirst_spec (W H w h : ℕ) (hw : 0 < w) (hh : 0 < h) :
    (fitWidthFirst W H w h).1 ≤ W ∧ (fitWidthFirst W H w h).2 ≤ H ∧
    ((fitWidthFirst W H w h).1 = W ∨ (fitWidthFirst W H w h).2 = H) ∧
    ((fitWidthFirst W H w h).2 =
        (⌈((fitWidthFirst W H w h).1 : ℚ) / ((w : ℚ) / h)⌉).toNat ∨
      (fitWidthFirst W H w h).1 =
        (⌈((fitWidthFirst W H w h).2 : ℚ) * ((w : ℚ) / h)⌉).toNat) := by
  have hr : (0 : ℚ) < (w : ℚ) / h :=
    div_pos (by exact_mod_cast hw) (by exact_mod_cast hh)
  unfold fitWidthFirst
  split
  · next hcond =>
      have h1 : ((H : ℤ) : ℚ) < (W : ℚ) / ((w : ℚ) / h) :=
        Int.lt_ceil.mp (Int.lt_toNat.mp hcond)
      have h2 : (H : ℚ) * ((w : ℚ) / h) < (W : ℚ) := by
        rw [lt_div_iff₀ hr] at h1
        exact_mod_cast h1
      have h3 : (⌈(H : ℚ) * ((w : ℚ) / h)⌉).toNat ≤ W :=
        Int.toNat_le.mpr (Int.ceil_le.mpr (by exact_mod_cast h2.le))
      exact ⟨h3, le_refl H, Or.inr rfl, Or.inr rfl⟩
  · next hcond =>
      push_neg at hcond
      exact ⟨le_refl W, hcond, Or.inl rfl, Or.inl rfl⟩

lemma fitHeightFirst_spec (W H w h : ℕ) (hw : 0 < w) (hh : 0 < h) :
    (fitHeightFirst W H w h).1 ≤ W ∧ (fitHeightFirst W H w h).2 ≤ H ∧
    ((fitHeightFirst W H w h).1 = W ∨ (fitHeightFirst W H w h).2 = H) ∧
    ((fitHeightFirst W H w h).2 =
        (⌈((fitHeightFirst W H w h).1 : ℚ) / ((w : ℚ) / h)⌉).toNat ∨
      (fitHeightFirst W H w h).1 =
        (⌈((fitHeightFirst W H w h).2 : ℚ) * ((w : ℚ) / h)⌉).toNat) := by
  have hr : (0 : ℚ) < (w : ℚ) / h :=
    div_pos (by exact_mod_cast hw) (by exact_mod_cast hh)
  unfold fitHeightFirst
  split
  · next hcond =>
      have h1 : ((W : ℤ) : ℚ) < (H : ℚ) * ((w : ℚ) / h) :=
        Int.lt_ceil.mp (Int.lt_toNat.mp hcond)
      have h2 : (W : ℚ) / ((w : ℚ) / h) < (H : ℚ) := by
        rw [div_lt_iff₀ hr]
        exact_mod_cast h1
      have h3 : (⌈(W : ℚ) / ((w : ℚ) / h)⌉).toNat ≤ H :=
        Int.toNat_le.mpr (Int.ceil_le.mpr (by exact_mod_cast h2.le))
      exact ⟨le_refl W, h3, Or.inl rfl, Or.inl rfl⟩
  · next hcond =>
      push_neg at hcond
      exact ⟨hcond, le_refl H, Or.inr rfl, Or.inr rfl⟩

/-- C2.  For positive native dimensions `(w, h)` and any box `(W, H)`:
the fitted size never exceeds the box on either axis; when the native
size already fits it is returned unscaled (never upscaled), otherwise
at least one output dimension exactly equals its box dimension; the
output preserves the native ratio within `ceil`-rounding (one dimension
is derived from the other through `ratio = w / h` and `ceil`); and the
tie `w = h` is handled by the landscape/width-first branch. -/
theorem aspect_fit_spec (W H w h : ℕ) (hw : 0 < w) (hh : 0 < h) :
    (fitSize W H w h).1 ≤ W ∧ (fitSize W H w h).2 ≤ H ∧
    (if w ≤ W ∧ h ≤ H then fitSize W H w h = (w, h)
      else (fitSize W H w h).1 = W ∨ (fitSize W H w h).2 = H) ∧
    (fitSize W H w h = (w, h) ∨
      (fitSize W H w h).2 =
        (⌈((fitSize W H w h).1 : ℚ) / ((w : ℚ) / h)⌉).toNat ∨
      (fitSize W H w h).1 =
        (⌈((fitSize W H w h).2 : ℚ) * ((w : ℚ) / h)⌉).toNat) ∧
    (w = h → (W < w ∨ H < h) → fitSize W H w h = fitWidthFirst W H w h) := by
  unfold fitSize
  split
  · next hsc =>
      split
      · next hlw =>
          obtain ⟨b1, b2, b3, b4⟩ := fitWidthFirst_spec W H w h hw hh
          refine ⟨b1, b2, ?_, Or.inr b4, fun _ _ => rfl⟩
          rw [if_neg (by omega)]
          exact b3
      · next hlw =>
          obtain ⟨b1, b2, b3, b4⟩ := fitHeightFirst_spec W H w h hw hh
          refine ⟨b1, b2, ?_, Or.inr b4, fun heq _ => absurd heq (by omega)⟩
          rw [if_neg (by omega)]
          exact b3
  · next hsc =>
      push_neg at hsc
      exact ⟨hsc.1, hsc.2, by rw [if_pos ⟨hsc.1, hsc.2⟩],
        Or.inl rfl, fun _ hcon => absurd hcon (by omega)⟩

/-- C2 (witness): the fit specification at box 100×50 and native
200×100. -/
theorem aspect_fit_spec_witness :
    (fitSize 100 50 200 100).1 ≤ 100 ∧ (fitSize 100 50 200 100).2 ≤ 50 ∧
    (if 200 ≤ 100 ∧ 100 ≤ 50 then fitSize 100 50 200 100 = (200, 100)
      else (fitSize 100 50 200 100).1 = 100 ∨
        (fitSize 100 50 200 100).2 = 50) ∧
    (fitSize 100 50 200 100 = (200, 100) ∨
      (fitSize 100 50 200 100).2 =
        (⌈((fitSize 100 50 200 100).1 : ℚ) /
          (((200 : ℕ) : ℚ) / ((100 : ℕ) : ℚ))⌉).toNat ∨
      (fitSize 100 50 200 100).1 =
        (⌈((fitSize 100 50 200 100).2 : ℚ) *
          (((200 : ℕ) : ℚ) / ((100 : ℕ) : ℚ))⌉).toNat) ∧
    (200 = 100 → (100 < 200 ∨ 50 < 100) →
      fitSize 100 50 200 100 = fitWidthFirst 100 50 200 100) :=
  aspect_fit_spec 100 50 200 100 (by decide) (by decide)

/-- C3 (counterexample).  Frames `[f0, f1, f2]` with recorded per-frame
delays `[0.1, 0.2, 0.3]` and a top-level gif duration of 100 ms: the
wait inserted after presenting frame `f1` (event 1) is the single
playback delay `0.1`, not that frame's own recorded delay `0.2` — the
recorded `delays` list is never consulted by `repeat_gif`. -/
theorem playback_delay_counterexample :
    repeatGifEvent [0, 1, 2] (showGifDelay (some 100)) 1 =
      some (1, 1 / 10) ∧
    [(1 : ℚ) / 10, 2 / 10, 3 / 10].get? 1 = some (2 / 10) ∧
    (1 : ℚ) / 10 ≠ 2 / 10 := by
  refine ⟨?_, by simp, by norm_num⟩
  simp only [repeatGifEvent, showGifDelay, List.length_cons,
    List.length_nil, List.get?]
  norm_num

/-- C3 (amended).  For a nonempty frame list, playback presents frame
`k mod n` at event `k` — so `f0, f1, f2, f0, f1, f2, ...` indefinitely
until cancelled, the trace being periodic with period `n` — and the
wait after every presentation equals the single `delay` argument (the
source's top-level duration, or 1/15), the same for every frame. -/
theorem playback_fixed_delay {F : Type} (frames : List F) (delay : ℚ)
    (k : ℕ) (hne : frames ≠ []) :
    ∃ f, frames.get? (k % frames.length) = some f ∧
      repeatGifEvent frames delay k = some (f, delay) ∧
      repeatGifEvent frames delay (k + frames.length) =
        repeatGifEvent frames delay k := by
  have hlen : 0 < frames.length := List.length_pos.mpr hne
  have hk : k % frames.length < frames.length := Nat.mod_lt _ hlen
  obtain ⟨f, hf⟩ : ∃ f, frames.get? (k % frames.length) = some f := by
    cases hg : frames.get? (k % frames.length) with
    | some f => exact ⟨f, rfl⟩
    | none =>
        rw [List.get?_eq_none] at hg
        omega
  refine ⟨f, hf, ?_, ?_⟩
  · unfold repeatGifEvent
    rw [hf]
    rfl
  · unfold repeatGifEvent
    rw [Nat.add_mod_right]

/-- C3 (witness): the amended statement on two frames at event 3. -/
theorem playback_fixed_delay_witness :
    ∃ f, [10, 20].get? (3 % [10, 20].length) = some f ∧
      repeatGifEvent [10, 20] (1 / 4) 3 = some (f, 1 / 4) ∧
      repeatGifEvent [10, 20] (1 / 4) (3 + [10, 20].length) =
        repeatGifEvent [10, 20] (1 / 4) 3 :=
  playback_fixed_delay [10, 20] (1 / 4) 3 (by decide)

/-- C9.  Resolving any index at or beyond the end of the image list
yields `None` (the `IndexError` is caught), never an exception. -/
theorem get_image_path_out_of_range (source : String)
    (images : List String) (index : ℤ)
    (h : (images.length : ℤ) ≤ index) :
    get_image_path source images index = none := by
  have h0 : 0 ≤ index := le_trans (Int.ofNat_nonneg _) h
  have hlen : images.length ≤ index.toNat := by omega
  unfold get_image_path pyListGet
  rw [if_pos h0, List.get?_eq_none.mpr hlen]
  rfl

/-- C9 (witness): index 5 into a one-element list resolves to `none`. -/
theorem get_image_path_out_of_range_witness :
    ((["a.png"] : List String).length : ℤ) ≤ 5 ∧
      get_image_path "d" ["a.png"] 5 = none :=
  ⟨by decide, get_image_path_out_of_range "d" ["a.png"] 5 (by decide)⟩

lemma rotateStep_bounds (b : Bool) (r : ℤ) (h1 : -3 ≤ r) (h2 : r ≤ 3) :
    -3 ≤ rotateStep b r ∧ rotateStep b r ≤ 3 := by
  cases b <;> unfold rotateStep <;> split <;> omega

lemma rotateFold_bounds (events : List Bool) : ∀ r : ℤ, -3 ≤ r → r ≤ 3 →
    -3 ≤ events.foldl (fun a e => rotateStep e a) r ∧
      events.foldl (fun a e => rotateStep e a) r ≤ 3 := by
  induction events with
  | nil => intro r h1 h2; exact ⟨h1, h2⟩
  | cons e rest ih =>
      intro r h1 h2
      have hb := rotateStep_bounds e r h1 h2
      simpa using ih (rotateStep e r) hb.1 hb.2

/-- C10.  Starting from rotation 0, any sequence of rotate events keeps
the rotation in `{-3, ..., 3}`; each step adds or subtracts 1 or wraps
to 0, stays in range, and the wrap fires exactly on reaching +4
(clockwise from 3) or -4 (counter-clockwise from -3). -/
theorem handle_rotate_invariant (events : List Bool) (b : Bool) (r : ℤ)
    (h1 : -3 ≤ r) (h2 : r ≤ 3) :
    (-3 ≤ rotateRun events ∧ rotateRun events ≤ 3) ∧
    (rotateStep b r = r - 1 ∨ rotateStep b r = r + 1 ∨
      rotateStep b r = 0) ∧
    (-3 ≤ rotateStep b r ∧ rotateStep b r ≤ 3) ∧
    rotateStep false 3 = 0 ∧ rotateStep true (-3) = 0 := by
  refine ⟨rotateFold_bounds events 0 (by norm_num) (by norm_num), ?_,
    rotateStep_bounds b r h1 h2, by decide, by decide⟩
  cases b <;> unfold rotateStep <;> split <;> omega

/-- C10 (witness): four clockwise steps from 0, and one
counter-clockwise step at 0. -/
theorem handle_rotate_invariant_witness :
    ((-3 ≤ rotateRun [false, false, false, false] ∧
      rotateRun [false, false, false, false] ≤ 3) ∧
    (rotateStep true 0 = 0 - 1 ∨ rotateStep true 0 = 0 + 1 ∨
      rotateStep true 0 = 0) ∧
    (-3 ≤ rotateStep true 0 ∧ rotateStep true 0 ≤ 3) ∧
    rotateStep false 3 = 0 ∧ rotateStep true (-3) = 0) :=
  handle_rotate_invariant [false, false, false, false] true 0
    (by decide) (by decide)

/-- C8 (witness): the amended statement at the concrete two-entry
cache, reading key 1. -/
theorem cache_lru_read_promotion_witness :
    (∃ c₂ l, Cache.getItem sumSize 1 lruCache = .ok (5, c₂) ∧
      c₂.entries = l ++ [(1, 5)] ∧ Cache.lookup 1 l = none) ∧
    ((Cache.setRaw 1 9 lruCache.entries).map Prod.fst =
      lruCache.entries.map Prod.fst) ∧
    (lruCache.max_size < sumSize lruCache.entries →
      1 < lruCache.entries.length →
      (Cache.cull sumSize lruCache).entries = lruCache.entries.tail) :=
  cache_lru_read_promotion sumSize lruCache 1 5 9 (by decide)

/-! ### Debounce helper lemmas -/

lemma applyTrace_single (sb : ℤ) (s : ResizeState) (a : RAction) :
    applyTrace sb s [a] = RAction.step sb s a := rfl

lemma applyTrace_cons (sb : ℤ) (s : ResizeState) (a : RAction)
    (tr : List RAction) :
    applyTrace sb s (a :: tr) = applyTrace sb (RAction.step sb s a) tr :=
  rfl

lemma applyTrace_append (sb : ℤ) (s : ResizeState)
    (l₁ l₂ : List RAction) :
    applyTrace sb s (l₁ ++ l₂) = applyTrace sb (applyTrace sb s l₁) l₂ := by
  unfold applyTrace
  exact List.foldl_append _ _ _ _

lemma runPending_le_deadline (t : ℚ) (s : ResizeState)
    (hq : t ≤ s.lastConfigure + 1 / 10) : runPending t s = s := by
  unfold runPending
  split
  · rfl
  · rw [if_neg (by linarith : ¬ (1 / 10 < t - s.lastConfigure))]

lemma runs_fire (sb : ℤ) (T : ℚ) : ∀ (k : ℕ) (s : ResizeState),
    1 / 10 < T - s.lastConfigure → k ≤ s.pending →
    (applyTrace sb s (List.replicate k (RAction.run T))).cycles =
      s.cycles + k ∧
    (applyTrace sb s (List.replicate k (RAction.run T))).pending =
      s.pending - k := by
  intro k
  induction k with
  | zero =>
      intro s hT hk
      simp [applyTrace]
  | succ j ih =>
      intro s hT hk
      have hp : ¬ s.pending = 0 := by omega
      have hstep : runPending T s =
          { s with pending := s.pending - 1, cycles := s.cycles + 1 } := by
        unfold runPending
        rw [if_neg hp, if_pos hT]
      rw [List.replicate_succ, applyTrace_cons]
      have hstep2 : RAction.step sb s (RAction.run T) = runPending T s := rfl
      rw [hstep2, hstep]
      obtain ⟨hc, hp2⟩ := ih
        { s with pending := s.pending - 1, cycles := s.cycles + 1 }
        hT (by simp; omega)
      rw [hc, hp2]
      simp
      omega

lemma burst_events_state (sb : ℤ) (n : ℕ) (hn : 1 ≤ n) :
    (applyTrace sb initResize (burstEvents n)).pending = n ∧
    (applyTrace sb initResize (burstEvents n)).cycles = 0 ∧
    (applyTrace sb initResize (burstEvents n)).lastConfigure =
      ((n - 1 : ℕ) : ℚ) / 20 ∧
    (applyTrace sb initResize (burstEvents n)).width =
      600 + ((n - 1 : ℕ) : ℤ) := by
  induction n, hn using Nat.le_induction with
  | base =>
      have hone : burstEvents 1 =
          [RAction.resize (((0 : ℕ) : ℚ) / 20) (600 + ((0 : ℕ) : ℤ)) 700] := by
        unfold burstEvents
        rw [List.range_succ, List.range_zero]
        rfl
      rw [hone, applyTrace_single]
      simp only [RAction.step]
      unfold handleResize
      rw [if_neg (by norm_num [initResize])]
      refine ⟨rfl, rfl, by norm_num, by norm_num⟩
  | succ n hn ih =>
      obtain ⟨hp, hc, hl, hw⟩ := ih
      have hsplit : burstEvents (n + 1) = burstEvents n ++
          [RAction.resize ((n : ℚ) / 20) (600 + (n : ℤ)) 700] := by
        unfold burstEvents
        rw [List.range_succ, List.map_append]
        rfl
      have hguard : ¬((applyTrace sb initResize (burstEvents n)).width =
          600 + (n : ℤ) ∧
          (applyTrace sb initResize (burstEvents n)).height - sb < 700 ∧
          700 < (applyTrace sb initResize (burstEvents n)).height + sb) := by
        intro hcon
        obtain ⟨h1, -, -⟩ := hcon
        rw [hw] at h1
        omega
      rw [hsplit, applyTrace_append, applyTrace_single]
      simp only [RAction.step]
      unfold handleResize
      rw [if_neg hguard]
      refine ⟨?_, ?_, ?_, ?_⟩
      · show (applyTrace sb initResize (burstEvents n)).pending + 1 = n + 1
        rw [hp]
      · show (applyTrace sb initResize (burstEvents n)).cycles = 0
        exact hc
      · show (n : ℚ) / 20 = ((n + 1 - 1 : ℕ) : ℚ) / 20
        norm_num
      · show (600 : ℤ) + (n : ℤ) = 600 + ((n + 1 - 1 : ℕ) : ℤ)
        norm_num

/-- C4 (counterexample).  Two effective resize events 50 ms apart
(each within the quiescence window of its successor) followed by the
execution of the two scheduled `handle_resize_end` callbacks after
quiescence: the code performs two cache-clear-and-reload cycles, not
exactly one — every resize event schedules its own callback chain and
nothing stops the extra chains from also firing. -/
theorem resize_debounce_counterexample :
    (applyTrace 50 initResize (burstTrace 2)).cycles = 2 ∧
    (applyTrace 50 initResize (burstTrace 2)).cycles ≠ 1 := by
  obtain ⟨hp, hc, hl, -⟩ := burst_events_state 50 2 (by norm_num)
  unfold burstTrace
  rw [applyTrace_append]
  obtain ⟨hcyc, -⟩ := runs_fire 50 (((2 : ℕ) : ℚ) + 1) 2
    (applyTrace 50 initResize (burstEvents 2))
    (by rw [hl]; norm_num) (le_of_eq hp.symm)
  rw [hcyc, hc]
  omega

/-- C4 (amended).  A scheduled callback that runs at or before 100 ms
past the last recorded resize performs no cycle (it only reschedules),
and a burst of `n ≥ 1` effective resize events — each within the
quiescence window of its successor — followed by the execution of the
`n` scheduled callbacks after quiescence performs exactly `n`
cache-clear-and-reload cycles, one per resize event, all of them after
the 100 ms quiescence deadline of the last event. -/
theorem resize_debounce_cycles (sb : ℤ) (s : ResizeState) (t : ℚ)
    (n : ℕ) (hq : t ≤ s.lastConfigure + 1 / 10) (hn : 1 ≤ n) :
    runPending t s = s ∧
    (applyTrace sb initResize (burstTrace n)).cycles = n := by
  refine ⟨runPending_le_deadline t s hq, ?_⟩
  obtain ⟨hp, hc, hl, -⟩ := burst_events_state sb n hn
  unfold burstTrace
  rw [applyTrace_append]
  have hT : 1 / 10 < ((n : ℚ) + 1) -
      (applyTrace sb initResize (burstEvents n)).lastConfigure := by
    rw [hl]
    have h1 : ((n - 1 : ℕ) : ℚ) / 20 ≤ ((n - 1 : ℕ) : ℚ) :=
      div_le_self (by positivity) (by norm_num)
    have h2 : ((n - 1 : ℕ) : ℚ) ≤ (n : ℚ) := by
      exact_mod_cast Nat.sub_le n 1
    linarith
  obtain ⟨hcyc, -⟩ := runs_fire sb ((n : ℚ) + 1) n
    (applyTrace sb initResize (burstEvents n)) hT (le_of_eq hp.symm)
  rw [hcyc, hc]
  omega

/-- C4 (witness): the amended statement for a two-event burst, with a
callback probed at 50 ms. -/
theorem resize_debounce_cycles_witness :
    runPending (1 / 20) initResize = initResize ∧
    (applyTrace 50 initResize (burstTrace 2)).cycles = 2 :=
  resize_debounce_cycles 50 initResize (1 / 20) 2
    (by norm_num [initResize]) (by norm_num)

/-- C5 (counterexample).  A controller at index 4 with rotation 2: the
settled resize handler resets the rotation to 0 (inside
`reload_context`) and the re-triggered `show` receives rotation 0 —
not the pre-resize rotation 2 the claim requires. -/
theorem resize_rotation_counterexample :
    (handleResizeEndSettled ⟨4, 2, 1, ["load_gif"]⟩).1.currentRotation
      = 0 ∧
    (handleResizeEndSettled ⟨4, 2, 1, ["load_gif"]⟩).2.2.2 = 0 ∧
    ¬((handleResizeEndSettled ⟨4, 2, 1, ["load_gif"]⟩).1.currentRotation
        = 2 ∨
      (handleResizeEndSettled ⟨4, 2, 1, ["load_gif"]⟩).2.2.2 = 2) := by
  decide

/-- C5 (amended).  Settled resize handling calls `reload_context`,
which resets the rotation (and zoom) to 0 and clears the play tasks;
the re-triggered `show` is invoked at the unchanged current index but
with rotation 0 — the value after the reset — rather than the
pre-resize rotation. -/
theorem resize_resets_rotation (s : CtrlState) :
    (handleResizeEndSettled s).1.currentRotation = 0 ∧
    (handleResizeEndSettled s).2 = (s.currentIndex, s.currentIndex, 0) ∧
    (handleResizeEndSettled s).1.currentIndex = s.currentIndex ∧
    (handleResizeEndSettled s).1.playTasks = [] ∧
    (reload_context s).currentRotation = 0 :=
  ⟨rfl, rfl, rfl, rfl, rfl⟩

/-- C6 (counterexample).  Images `["a.png", "b.png", "c.png"]`, current
index 1, confirmed deletion: the entry is removed, but the scheduled
call is `show(1)` — the single positional argument binds to
`cur_index`, the display `index` defaults to 0 — so item 0 (`a.png`)
is displayed, not the item now at index 1 (`c.png`) as the claim
requires. -/
theorem delete_reshow_counterexample :
    (handleDelete true dctx).1.images = ["a.png", "c.png"] ∧
    (handleDelete true dctx).2 = some (1, 0, 0) ∧
    showDisplayed dctx.uneditedPath dctx.source
      (handleDelete true dctx).1.images 1 0 = some "d/a.png" ∧
    get_image_path dctx.source (handleDelete true dctx).1.images 1 =
      some "d/c.png" ∧
    (some "d/a.png" : Option String) ≠ some "d/c.png" := by
  decide

lemma eraseIdx_get {α : Type} (l : List α) :
    ∀ i : ℕ, (l.eraseIdx i).get? i = l.get? (i + 1) := by
  induction l with
  | nil => intro i; simp [List.eraseIdx]
  | cons a tl ih =>
      intro i
      cases i with
      | zero => simp [List.eraseIdx]
      | succ j => simpa [List.eraseIdx] using ih j

/-- C6 (amended).  On a declined prompt nothing changes; on a confirmed
deletion the entry at the current index is removed from the in-memory
list (so that index now refers to the item that followed), the current
index itself is not adjusted, and the scheduled re-show passes the
current index as `show`'s first parameter `cur_index`, leaving the
display parameter `index` at its default 0 — so whenever the current
index is nonzero the first item of the updated list (not the item at
the current index) is what gets displayed. -/
theorem handle_delete_amended (s : DeleteCtx) :
    (handleDelete true s).1.images = s.images.eraseIdx s.currentIndex ∧
    (handleDelete true s).1.images.get? s.currentIndex =
      s.images.get? (s.currentIndex + 1) ∧
    (handleDelete true s).2 = some (s.currentIndex, 0, 0) ∧
    (handleDelete true s).1.currentIndex = s.currentIndex ∧
    handleDelete false s = (s, none) ∧
    (∀ curIdx : ℤ, curIdx ≠ 0 →
      showDisplayed s.uneditedPath s.source
        (handleDelete true s).1.images curIdx 0 =
      get_image_path s.source (handleDelete true s).1.images 0) := by
  refine ⟨rfl, eraseIdx_get s.images s.currentIndex, rfl, rfl, rfl, ?_⟩
  intro curIdx hne
  unfold showDisplayed
  rw [if_pos (Or.inl (Ne.symm hne))]

/-- C6 (witness): the amended statement at the concrete delete
context. -/
theorem handle_delete_amended_witness :
    (handleDelete true dctx).1.images =
      dctx.images.eraseIdx dctx.currentIndex ∧
    (handleDelete true dctx).1.images.get? dctx.currentIndex =
      dctx.images.get? (dctx.currentIndex + 1) ∧
    (handleDelete true dctx).2 = some (dctx.currentIndex, 0, 0) ∧
    (handleDelete true dctx).1.currentIndex = dctx.currentIndex ∧
    handleDelete false dctx = (dctx, none) ∧
    showDisplayed dctx.uneditedPath dctx.source
      (handleDelete true dctx).1.images 1 0 =
      get_image_path dctx.source (handleDelete true dctx).1.images 0 := by
  have h := handle_delete_amended dctx
  exact ⟨h.1, h.2.1, h.2.2.1, h.2.2.2.1, h.2.2.2.2.1,
    h.2.2.2.2.2 1 (by decide)⟩
